/-
Verification of the CFO board-pack pipeline (`app.py`).

The program ingests a table, coerces a chosen amount column to numbers,
computes KPIs (total / average / max), aggregates a per-period trend,
ranks period-over-period variance deltas, and assembles a multi-section
PDF report.  This file embeds those computations shallowly:

* a cell is a tagged variant (numeric / text / empty), following the
  data model of the design notes; `pd.to_numeric(errors="coerce")`
  becomes a total function into `Option ℚ` (floats are modelled as
  exact rationals);
* pandas' NaN-skipping reductions (`sum`, `mean`, `max`) become
  explicit folds over `Option ℚ` lists;
* `groupby(...).sum()` becomes: sorted distinct keys, each paired with
  the sum of the non-missing coerced amounts of its rows;
* `nlargest` / `nsmallest` with the default `keep="first"` become a
  stable insertion sort by value followed by `take 3`;
* the PDF assembly (`build_board_pack`) becomes a control-flow model
  in `Except`, where each black-box writer call is abstracted by a
  success flag, so that the try/except structure of the source is
  preserved exactly.
-/
import Mathlib

namespace CFO

/-- A table cell: a numeric value (including numeric text that
`pd.to_numeric` parses), non-numeric text, or an empty/NaN cell. -/
inductive Cell where
  | num : ℚ → Cell
  | text : Cell
  | empty : Cell
deriving DecidableEq, Repr

/-- `coerce_numeric` (app.py line 31-32): `pd.to_numeric(series, errors="coerce")`
applied to one cell.  Total: every non-convertible cell becomes `none`. -/
def coerce_numeric : Cell → Option ℚ
  | .num q => some q
  | .text => none
  | .empty => none

/-- pandas `Series.sum()` with default `skipna=True`: fold skipping NaN;
an all-missing (or empty) series sums to 0. -/
def nansum : List (Option ℚ) → ℚ
  | [] => 0
  | none :: t => nansum t
  | some q :: t => q + nansum t

/-- Count of non-NaN entries, the denominator of pandas `Series.mean()`. -/
def nancount : List (Option ℚ) → Nat
  | [] => 0
  | none :: t => nancount t
  | some _ :: t => nancount t + 1

/-- pandas `Series.mean()` with `skipna=True`: NaN-skipping sum divided by
the count of non-NaN entries (app.py line 80). -/
def nanmean (l : List (Option ℚ)) : ℚ :=
  nansum l / (nancount l : ℚ)

/-- pandas `Series.max()` with `skipna=True`: maximum over the non-NaN
entries, `none` when no entry is present (app.py line 81). -/
def nanmax : List (Option ℚ) → Option ℚ
  | [] => none
  | none :: t => nanmax t
  | some q :: t =>
    some (match nanmax t with
      | none => q
      | some m => max q m)

/-- `df.dropna(how="all")` (app.py line 45): remove rows in which every
cell is empty. -/
def dropEmptyRows (rows : List (List Cell)) : List (List Cell) :=
  rows.filter (fun row => !(row.all (fun c => c = Cell.empty)))

/-- The raw uploaded table: a declared column count and the rows. -/
structure RawTable where
  ncols : Nat
  rows : List (List Cell)
deriving DecidableEq, Repr

/-- Pipeline-aborting errors surfaced by `st.error` + `st.stop`. -/
inductive PipeError where
  | emptyDataset
  | allValuesMissing
deriving DecidableEq, Repr

/-- Loading/cleaning stage (app.py lines 44-48): drop all-empty rows, then
abort when fewer than two columns exist.  There is no check on the number
of remaining rows. -/
def load_table (t : RawTable) : Except PipeError (List (List Cell)) :=
  let cleaned := dropEmptyRows t.rows
  if t.ncols < 2 then .error .emptyDataset else .ok cleaned

/-- The amount column of a table, one cell per row (missing positions read
as empty cells). -/
def column (rows : List (List Cell)) (i : Nat) : List Cell :=
  rows.map (fun r => r.getD i Cell.empty)

/-- The analysis pipeline up to the KPI stage (app.py lines 44-85): load,
coerce the amount column, abort with `allValuesMissing` when every coerced
value is missing (`vals.isna().all()`, line 74-76), otherwise produce the
KPI triple (total, average, max).  Trend, variance and report stages only
run on a successful result. -/
def pipeline (t : RawTable) (amountIdx : Nat) : Except PipeError (ℚ × ℚ × ℚ) :=
  match load_table t with
  | .error e => .error e
  | .ok rows =>
    let vals := (column rows amountIdx).map coerce_numeric
    if vals.all (fun v => v.isNone) then .error .allValuesMissing
    else .ok (nansum vals, nanmean vals, (nanmax vals).getD 0)

/-! ### Trend aggregation (app.py lines 88-105)

The trend works on the two selected columns only: each data row is a
period key (generic `α`, ordered as pandas orders the group keys) plus an
amount cell. -/

/-- One row of the two selected columns. -/
structure Row (α : Type) where
  period : α
  amount : Cell
deriving DecidableEq, Repr

/-- The group keys produced by `groupby(period_col)` with the default
`sort=True`: the distinct period values, ascending. -/
def groupKeys {α : Type} [LinearOrder α] (rows : List (Row α)) : List α :=
  List.insertionSort (· ≤ ·) ((rows.map Row.period).dedup)

/-- `groupby(period_col)[amount_col].sum()` for one key: the NaN-skipping
sum of the coerced amounts of the rows carrying that key (a group whose
amounts are all missing sums to 0). -/
def groupSum {α : Type} [DecidableEq α] (rows : List (Row α)) (k : α) : ℚ :=
  nansum ((rows.filter (fun r => decide (r.period = k))).map
    (fun r => coerce_numeric r.amount))

/-- `trend = tmp.groupby(period_col)[amount_col].sum()` (app.py lines 91-93):
the coerced amounts summed per distinct period key, keys ascending. -/
def trendOf {α : Type} [LinearOrder α] (rows : List (Row α)) : List (α × ℚ) :=
  (groupKeys rows).map (fun k => (k, groupSum rows k))

/-- Rows kept after `dropna(subset=[amount_col])`, i.e. rows whose coerced
amount is present.  Used by the spec-worded trend below and by the
variance block. -/
def dropMissing {α : Type} (rows : List (Row α)) : List (Row α) :=
  rows.filter (fun r => (coerce_numeric r.amount).isSome)

/-- Modelled from the spec's words for §4.5 (claim C2): "coerce the amount
column, drop rows where the coerced amount is missing, group remaining
rows by the raw period-column value and sum the amount within each group".
To be compared with `trendOf`, which embeds the source. -/
def trend_spec {α : Type} [LinearOrder α] (rows : List (Row α)) : List (α × ℚ) :=
  trendOf (dropMissing rows)

/-- Ordering on trend entries by the parsed date of the key (`getD 0` is
irrelevant: it is only used when every key parses). -/
def dateLe {α : Type} (parse : α → Option Int) (a b : α × ℚ) : Prop :=
  (parse a.1).getD 0 ≤ (parse b.1).getD 0

instance {α : Type} (parse : α → Option Int) : DecidableRel (dateLe parse) :=
  fun _ _ => inferInstanceAs (Decidable (_ ≤ _))

instance {α : Type} (parse : α → Option Int) : IsTotal (α × ℚ) (dateLe parse) :=
  ⟨fun _ _ => le_total _ _⟩

instance {α : Type} (parse : α → Option Int) : IsTrans (α × ℚ) (dateLe parse) :=
  ⟨fun _ _ _ => le_trans⟩

/-- The sort step of the trend block (app.py lines 96-100):
`trend.index = pd.to_datetime(trend.index)` succeeds only when every key
parses as a date (otherwise it raises and the `except: pass` leaves the
series untouched); on success `sort_index()` orders ascending by date. -/
def sortTrend {α : Type} (parse : α → Option Int) (t : List (α × ℚ)) : List (α × ℚ) :=
  if t.all (fun kv => (parse kv.1).isSome) then
    List.insertionSort (dateLe parse) t
  else t

/-- The whole trend computation: grouping then the date-sort attempt. -/
def trendPipeline {α : Type} [LinearOrder α] (parse : α → Option Int)
    (rows : List (Row α)) : List (α × ℚ) :=
  sortTrend parse (trendOf rows)

/-! ### Variance block of `build_board_pack` (app.py lines 205-212) -/

/-- Ordering of `(key, value)` pairs by key, used for
`df2.sort_values(by=period_col)`. -/
def keyLe {α : Type} [LinearOrder α] (a b : α × ℚ) : Prop := a.1 ≤ b.1

instance {α : Type} [LinearOrder α] : DecidableRel (keyLe (α := α)) :=
  fun _ _ => inferInstanceAs (Decidable (_ ≤ _))

instance {α : Type} [LinearOrder α] : IsTotal (α × ℚ) (keyLe (α := α)) :=
  ⟨fun _ _ => le_total _ _⟩

instance {α : Type} [LinearOrder α] : IsTrans (α × ℚ) (keyLe (α := α)) :=
  ⟨fun _ _ _ => le_trans⟩

/-- `df2 = df[[period_col, amount_col]]` with the amount coerced, rows with
a missing amount dropped, then `sort_values(by=period_col)` (app.py lines
206-209).  `sort_values` leaves the order of equal keys unspecified; we
model it with a stable sort, and every concrete instance used below is
insensitive to the tie order. -/
def varRows {α : Type} [LinearOrder α] (rows : List (Row α)) : List (α × ℚ) :=
  List.insertionSort keyLe
    (rows.filterMap (fun r => (coerce_numeric r.amount).map (fun q => (r.period, q))))

/-- First differences, `Series.diff()` without its leading NaN: a list of
`n` values yields `n - 1` differences. -/
def diffs : List ℚ → List ℚ
  | a :: b :: t => (b - a) :: diffs (b :: t)
  | _ => []

/-- The defined `MoM_Change` deltas of the variance block (app.py line 210):
row-level first differences of the period-sorted, missing-dropped amounts. -/
def varDeltas {α : Type} [LinearOrder α] (rows : List (Row α)) : List ℚ :=
  diffs ((varRows rows).map Prod.snd)

/-- Descending-by-value ordering on `(key, delta)` pairs. -/
def descVal {κ : Type} (a b : κ × ℚ) : Prop := b.2 ≤ a.2

instance {κ : Type} : DecidableRel (descVal (κ := κ)) :=
  fun _ _ => inferInstanceAs (Decidable (_ ≤ _))

instance {κ : Type} : IsTotal (κ × ℚ) (descVal (κ := κ)) :=
  ⟨fun _ _ => le_total _ _⟩

instance {κ : Type} : IsTrans (κ × ℚ) (descVal (κ := κ)) :=
  ⟨fun _ _ _ h h' => le_trans h' h⟩

/-- Ascending-by-value ordering on `(key, delta)` pairs. -/
def ascVal {κ : Type} (a b : κ × ℚ) : Prop := a.2 ≤ b.2

instance {κ : Type} : DecidableRel (ascVal (κ := κ)) :=
  fun _ _ => inferInstanceAs (Decidable (_ ≤ _))

instance {κ : Type} : IsTotal (κ × ℚ) (ascVal (κ := κ)) :=
  ⟨fun _ _ => le_total _ _⟩

instance {κ : Type} : IsTrans (κ × ℚ) (ascVal (κ := κ)) :=
  ⟨fun _ _ _ => le_trans⟩

/-- `DataFrame.nlargest(3, col)` with the default `keep="first"`: stable
descending sort by value, first three (ties go to the earlier row). -/
def nlargest3 {κ : Type} (l : List (κ × ℚ)) : List (κ × ℚ) :=
  (List.insertionSort descVal l).take 3

/-- `DataFrame.nsmallest(3, col)` with the default `keep="first"`. -/
def nsmallest3 {κ : Type} (l : List (κ × ℚ)) : List (κ × ℚ) :=
  (List.insertionSort ascVal l).take 3

/-- The `ups` selection (app.py line 211) applied to a bare delta list,
positions in trend order as keys. -/
def topIncreases (ds : List ℚ) : List (Nat × ℚ) :=
  nlargest3 ds.enum

/-- The `downs` selection (app.py line 212). -/
def topDecreases (ds : List ℚ) : List (Nat × ℚ) :=
  nsmallest3 ds.enum

/-! ### Risks & Actions table (app.py lines 231-246) -/

/-- One row of the risk/action editor; the editor's TextColumns always
deliver strings (`fillna("").astype(str)` normalises stray NaN to `""`,
so fields are modelled as strings directly). -/
structure RiskRow where
  Risk : String
  Action : String
  Owner : String
  Due : String
deriving DecidableEq, Repr

/-- Python `str.strip()`: remove leading and trailing whitespace. -/
def stripChars (l : List Char) : List Char :=
  ((l.dropWhile Char.isWhitespace).reverse.dropWhile Char.isWhitespace).reverse

/-- `str.strip()` on a Lean string. -/
def strip (s : String) : String :=
  String.mk (stripChars s.data)

/-- The row mask of app.py line 233:
`(clean["Risk"].str.strip() != "") | (clean["Action"].str.strip() != "")`. -/
def hasContent (r : RiskRow) : Bool :=
  decide (strip r.Risk ≠ "") || decide (strip r.Action ≠ "")

/-- The Risks & Actions section content (app.py lines 232-246): keep rows
whose Risk or Action field is non-blank; emit the section only if some row
remains (`if not nonempty.empty`). -/
def risksSection (l : List RiskRow) : Option (List RiskRow) :=
  let nonempty := l.filter hasContent
  if nonempty.isEmpty then none else some nonempty

/-! ### Number formatting and variance rendering (app.py lines 221, 225) -/

/-- Insert a thousands separator after every third digit, acting on a
least-significant-first digit list. -/
def commaChunks : List Char → List Char
  | d1 :: d2 :: d3 :: d4 :: rest => d1 :: d2 :: d3 :: ',' :: commaChunks (d4 :: rest)
  | l => l

/-- Round to the nearest number of cents (half rounds up).  Python's
`:,.2f` formatting rounds the underlying double half-to-even; every value
this file evaluates is exact at two decimals, where the two rules agree. -/
def roundCents (q : ℚ) : Int :=
  ⌊q * 100 + 1 / 2⌋

/-- Python `f"{x:,.2f}"` on an exactly-representable value: sign, integer
digits grouped in threes by commas, and exactly two decimals. -/
def fmtComma2 (q : ℚ) : String :=
  let n : Int := roundCents q
  let sign := if n < 0 then "-" else ""
  let a := n.natAbs
  let ipart := a / 100
  let cents := a % 100
  let ids := (commaChunks (Nat.toDigits 10 ipart).reverse).reverse
  let cstr := if cents < 10 then "0" ++ String.mk (Nat.toDigits 10 cents)
              else String.mk (Nat.toDigits 10 cents)
  sign ++ String.mk ids ++ "." ++ cstr

/-- The rendered line for one entry of the `ups` list (app.py line 221):
`f"  - {r[period_col]}: +{float(r['MoM_Change']):,.2f}"` — note the
unconditional `+`. -/
def renderIncrease (k : String) (d : ℚ) : String :=
  "  - " ++ k ++ ": +" ++ fmtComma2 d

/-- The rendered line for one entry of the `downs` list (app.py line 225):
no sign is forced, the formatted value carries its own sign. -/
def renderDecrease (k : String) (d : ℚ) : String :=
  "  - " ++ k ++ ": " ++ fmtComma2 d

/-! ### Report assembly control flow (app.py lines 157-274)

`build_board_pack` writes sections in a fixed order through black-box PDF
primitives.  Each black-box call (and each pandas computation feeding a
section) can raise; the model abstracts every potentially-raising region
by a success flag and reproduces the source's try/except structure: the
variance block (lines 205-228) catches and writes a placeholder line, the
risks block (lines 231-248) catches and writes nothing, and every other
region is uncaught, so a failure there escapes `build_board_pack`. -/

/-- The sections a generated document can contain. -/
inductive Sect where
  | cover
  | execSummary
  | commentary
  | varianceHL
  | variancePlaceholder
  | risks
  | trendChart
  | appendix
deriving DecidableEq, Repr

/-- Inputs and failure behaviour of one `build_board_pack` call.  `*Ok`
flags state that the corresponding region's computations and writer calls
succeed; `hasCommentary` is `commentary.strip()` non-empty, `hasTrend` is
`trend_series is not None and not empty`, `risksHasContent` is the filtered
risk table being non-empty. -/
structure BuildEnv where
  coverOk : Bool
  execOk : Bool
  commentaryOk : Bool
  varianceOk : Bool
  risksOk : Bool
  chartOk : Bool
  appendixOk : Bool
  hasCommentary : Bool
  hasTrend : Bool
  risksHasContent : Bool
deriving DecidableEq, Repr

/-- Control-flow model of `build_board_pack` (app.py lines 157-274):
cover and executive summary first (uncaught), optional commentary
(uncaught), the variance block in try/except with a placeholder on
failure, the risks block in try/except with silent `pass` on failure,
the chart block uncaught, then the appendix (uncaught). -/
def build_board_pack (e : BuildEnv) : Except Unit (List Sect) :=
  if !e.coverOk then .error ()
  else if !e.execOk then .error ()
  else if e.hasCommentary && !e.commentaryOk then .error ()
  else
    let comm : List Sect := if e.hasCommentary then [.commentary] else []
    let varSec : List Sect :=
      if e.varianceOk then [.varianceHL] else [.variancePlaceholder]
    let rsk : List Sect :=
      if e.risksOk && e.risksHasContent then [.risks] else []
    if e.hasTrend && !e.chartOk then .error ()
    else
      let cht : List Sect := if e.hasTrend then [.trendChart] else []
      if !e.appendixOk then .error ()
      else .ok ([.cover, .execSummary] ++ comm ++ varSec ++ rsk ++ cht ++ [.appendix])

instance {ε σ : Type} [DecidableEq ε] [DecidableEq σ] : DecidableEq (Except ε σ) := fun a b =>
  match a, b with
  | .ok x, .ok y => if h : x = y then .isTrue (by simp [h]) else .isFalse (by simp [h])
  | .error x, .error y => if h : x = y then .isTrue (by simp [h]) else .isFalse (by simp [h])
  | .ok _, .error _ => .isFalse (by simp)
  | .error _, .ok _ => .isFalse (by simp)

/-- The section list carried by a successful build, `[]` on failure. -/
def sections : Except Unit (List Sect) → List Sect
  | .ok l => l
  | .error _ => []

/-- Modelled from the claim's wording for C9: a row with *all* fields
empty (after stripping), the rows the claim says are dropped. -/
def allFieldsBlank (r : RiskRow) : Bool :=
  decide (strip r.Risk = "") && decide (strip r.Action = "") &&
  decide (strip r.Owner = "") && decide (strip r.Due = "")

/-! ### Helper lemmas about the NaN-skipping reductions -/

theorem nansum_eq_sum_filterMap (vals : List (Option ℚ)) :
    nansum vals = (vals.filterMap id).sum := by
  induction vals with
  | nil => simp [nansum]
  | cons h t ih =>
    cases h with
    | none => simpa [nansum] using ih
    | some q => simp [nansum, ih]

theorem nancount_eq_length_filterMap (vals : List (Option ℚ)) :
    nancount vals = (vals.filterMap id).length := by
  induction vals with
  | nil => simp [nancount]
  | cons h t ih =>
    cases h with
    | none => simpa [nancount] using ih
    | some q => simp [nancount, ih]

theorem nanmax_eq_none_iff (vals : List (Option ℚ)) :
    nanmax vals = none ↔ vals.filterMap id = [] := by
  induction vals with
  | nil => simp [nanmax]
  | cons h t ih =>
    cases h with
    | none => simpa [nanmax] using ih
    | some q => simp [nanmax]

theorem nanmax_mem_and_le (vals : List (Option ℚ)) (m : ℚ) (hm : nanmax vals = some m) :
    m ∈ vals.filterMap id ∧ ∀ x ∈ vals.filterMap id, x ≤ m := by
  induction vals generalizing m with
  | nil => simp [nanmax] at hm
  | cons h t ih =>
    cases h with
    | none =>
      simp only [nanmax] at hm
      obtain ⟨h1, h2⟩ := ih m hm
      exact ⟨by simpa using h1, by simpa using h2⟩
    | some q =>
      simp only [nanmax] at hm
      rcases ht : nanmax t with _ | m'
      · rw [ht] at hm
        simp only [Option.some_inj] at hm
        subst hm
        have h0 := (nanmax_eq_none_iff t).mp ht
        simp [List.filterMap_cons, h0]
      · rw [ht] at hm
        simp only [Option.some_inj] at hm
        subst hm
        obtain ⟨h1, h2⟩ := ih m' ht
        simp only [List.filterMap_cons, id]
        constructor
        · rcases max_choice q m' with h | h <;> simp [h, h1]
        · intro x hx
          rcases List.mem_cons.mp hx with rfl | hx'
          · exact le_max_left _ _
          · exact le_trans (h2 x hx') (le_max_right _ _)

/-! ### Claim C5 -/

/-- C5 counterexample: a table with two columns whose single row is
entirely empty.  After `dropna(how="all")` zero rows remain, yet the code
does not fail: it only checks the column count, so loading succeeds with
an empty row list, refuting "fails ... exactly when ... zero rows remain
or fewer than two columns remain". -/
theorem C5_counterexample :
    ¬ ((load_table ⟨2, [[Cell.empty, Cell.empty]]⟩ = Except.error PipeError.emptyDataset) ↔
        (dropEmptyRows [[Cell.empty, Cell.empty]] = [] ∨ (2 : ℕ) < 2)) := by
  decide

/-- C5 (amended): loading fails with `EmptyDatasetError` exactly when the
table has fewer than two columns; the number of rows left after removing
all-empty rows is not checked, and a table with at least two columns whose
rows are all empty passes loading and is aborted later by the all-missing
amount check instead. -/
theorem C5_load_error_iff (t : RawTable) :
    (load_table t = Except.error PipeError.emptyDataset ↔ t.ncols < 2) ∧
    (2 ≤ t.ncols → dropEmptyRows t.rows = [] →
      ∀ i, pipeline t i = Except.error PipeError.allValuesMissing) := by
  constructor
  · unfold load_table
    by_cases h : t.ncols < 2 <;> simp [h]
  · intro h2 hrows i
    have hnl : ¬ t.ncols < 2 := by omega
    simp [pipeline, load_table, hnl, hrows, column]

/-- Witness for `C5_load_error_iff`: a one-column table is rejected, and a
two-column table whose only row is fully empty reaches the all-missing
check. -/
theorem C5_load_error_iff_witness :
    load_table ⟨1, [[Cell.num 1]]⟩ = Except.error PipeError.emptyDataset ∧
    pipeline ⟨2, [[Cell.empty, Cell.empty]]⟩ 0 = Except.error PipeError.allValuesMissing := by
  refine ⟨(C5_load_error_iff ⟨1, [[Cell.num 1]]⟩).1.mpr (by decide), ?_⟩
  exact (C5_load_error_iff ⟨2, [[Cell.empty, Cell.empty]]⟩).2 (by decide) (by decide) 0

/-! ### Claim C6 -/

/-- C6: numeric coercion is total and marks exactly the non-numeric cells
as missing, and the pipeline aborts with `AllValuesMissingError` exactly
when the table loads and the coerced amount column is fully missing; on
that error no KPI triple is produced and the trend/report stages (which
consume the pipeline's success value) never run. -/
theorem C6_allValuesMissing_iff (t : RawTable) (i : Nat) :
    (∀ c : Cell, (coerce_numeric c = none ↔ ∀ q : ℚ, c ≠ Cell.num q)) ∧
    (pipeline t i = Except.error PipeError.allValuesMissing ↔
      (2 ≤ t.ncols ∧
        ((column (dropEmptyRows t.rows) i).map coerce_numeric).all (fun v => v.isNone))) := by
  constructor
  · intro c
    cases c <;> simp [coerce_numeric]
  · unfold pipeline load_table
    by_cases h : t.ncols < 2
    · simp only [h, if_true]
      constructor
      · intro hcontra
        simp at hcontra
      · intro ⟨h2, _⟩
        omega
    · have h2 : 2 ≤ t.ncols := by omega
      simp only [h, if_false, h2, true_and]
      by_cases hall : ((column (dropEmptyRows t.rows) i).map coerce_numeric).all
          (fun v => v.isNone)
      · simp [hall]
      · simp [hall]

/-- Witness for `C6_allValuesMissing_iff`: Scenario C — an amount column
of pure text coerces to all-missing and aborts the pipeline. -/
theorem C6_allValuesMissing_iff_witness :
    pipeline ⟨2, [[Cell.text, Cell.text], [Cell.text, Cell.text]]⟩ 1 =
      Except.error PipeError.allValuesMissing := by
  exact (C6_allValuesMissing_iff ⟨2, [[Cell.text, Cell.text], [Cell.text, Cell.text]]⟩ 1).2.mpr
    (by decide)

/-! ### Claim C7 -/

/-- C7: on a coerced series with at least one present value, the KPI total
is the sum of exactly the non-missing values, the average is that sum
divided by the count of non-missing values only, and the max is attained
at a non-missing value that bounds every non-missing value. -/
theorem C7_kpis (vals : List (Option ℚ)) (h : vals.filterMap id ≠ []) :
    nansum vals = (vals.filterMap id).sum ∧
    nanmean vals = (vals.filterMap id).sum / ((vals.filterMap id).length : ℚ) ∧
    ∃ m, nanmax vals = some m ∧ m ∈ vals.filterMap id ∧ ∀ x ∈ vals.filterMap id, x ≤ m := by
  refine ⟨nansum_eq_sum_filterMap vals, ?_, ?_⟩
  · rw [nanmean, nansum_eq_sum_filterMap, nancount_eq_length_filterMap]
  · rcases hm : nanmax vals with _ | m
    · exact absurd ((nanmax_eq_none_iff vals).mp hm) h
    · obtain ⟨h1, h2⟩ := nanmax_mem_and_le vals m hm
      exact ⟨m, rfl, h1, h2⟩

/-- Witness for `C7_kpis`: Scenario B — `[10, missing, 30]` gives total 40,
average 20 (missing excluded from the denominator), and max 30. -/
theorem C7_kpis_witness :
    nansum [some 10, none, some 30] = 40 ∧
    nanmean [some 10, none, some 30] = 20 ∧
    nanmax [some 10, none, some 30] = some 30 := by
  obtain ⟨h1, h2, m, hm, hmem, _⟩ := C7_kpis [some 10, none, some 30] (by decide)
  refine ⟨?_, ?_, ?_⟩
  · rw [h1]; norm_num [List.filterMap]
  · rw [h2]; norm_num [List.filterMap]
  · have : m = 10 ∨ m = 30 := by
      have := hmem
      norm_num [List.filterMap] at this
      tauto
    rcases this with rfl | rfl
    · exact absurd (by norm_num [List.filterMap] : ¬ ∀ x ∈ [some (10:ℚ), none, some 30].filterMap id, x ≤ 10)
        (by simp_all)
    · exact hm

/-! ### Claim C4 -/

/-- C4 counterexample: the chart is an optional section, but its rendering
(`save_trend_image` / `pdf.image`, app.py lines 251-256) sits outside any
try/except.  With a trend present and the chart region failing (all other
regions fine), `build_board_pack` aborts: no placeholder, no rest of the
document — refuting "a failure while building any optional section ... is
caught at that section's boundary ... and the rest of the document is
still produced". -/
theorem C4_counterexample :
    build_board_pack ⟨true, true, true, true, true, false, true, false, true, true⟩ =
      Except.error () := by
  decide

/-- C4 (amended): generation aborts exactly on a cover, executive-summary,
commentary, appendix or chart-region failure; a variance failure is caught
and replaced by the one-line placeholder with the rest of the document
produced; a risks failure is caught but the section is silently omitted
with no placeholder; on every successful build the mandatory
cover/executive-summary/appendix sections are present, the variance
placeholder appears exactly when the variance region failed and the risks
section appears exactly when its region succeeded with content. -/
theorem C4_section_error_handling (c e cm v r ch ap hc ht rc : Bool) :
    (build_board_pack ⟨c, e, cm, v, r, ch, ap, hc, ht, rc⟩ = Except.error () ↔
      (c = false ∨ e = false ∨ (hc = true ∧ cm = false) ∨ (ht = true ∧ ch = false) ∨
        ap = false)) ∧
    (build_board_pack ⟨c, e, cm, v, r, ch, ap, hc, ht, rc⟩ ≠ Except.error () →
      (Sect.cover ∈ sections (build_board_pack ⟨c, e, cm, v, r, ch, ap, hc, ht, rc⟩) ∧
       Sect.execSummary ∈ sections (build_board_pack ⟨c, e, cm, v, r, ch, ap, hc, ht, rc⟩) ∧
       Sect.appendix ∈ sections (build_board_pack ⟨c, e, cm, v, r, ch, ap, hc, ht, rc⟩) ∧
       (Sect.variancePlaceholder ∈
          sections (build_board_pack ⟨c, e, cm, v, r, ch, ap, hc, ht, rc⟩) ↔ v = false) ∧
       (Sect.varianceHL ∈
          sections (build_board_pack ⟨c, e, cm, v, r, ch, ap, hc, ht, rc⟩) ↔ v = true) ∧
       (Sect.risks ∈ sections (build_board_pack ⟨c, e, cm, v, r, ch, ap, hc, ht, rc⟩) ↔
          (r = true ∧ rc = true)))) := by
  cases c <;> cases e <;> cases cm <;> cases v <;> cases r <;> cases ch <;> cases ap <;>
    cases hc <;> cases ht <;> cases rc <;> decide

/-- Witness for `C4_section_error_handling`: a failing variance region on
an otherwise healthy build yields a successful document containing the
placeholder. -/
theorem C4_section_error_handling_witness :
    Sect.variancePlaceholder ∈
      sections (build_board_pack ⟨true, true, true, false, true, true, true, false, false, true⟩) := by
  exact ((C4_section_error_handling true true true false true true true false false true).2
    (by decide)).2.2.2.1.mpr rfl

/-! ### Claim C9 -/

/-- C9 counterexample: a single row whose Risk and Action are empty but
whose Owner is "Bob".  The claim says only all-fields-empty rows are
dropped, so this row survives and the section should be produced; the code
(app.py line 233) keeps a row only if Risk or Action is non-blank, so it
drops the row and omits the section. -/
theorem C9_counterexample :
    ¬ ((risksSection [⟨"", "", "Bob", ""⟩] = none) ↔
        ([(⟨"", "", "Bob", ""⟩ : RiskRow)].filter (fun r => !(allFieldsBlank r)) = [])) := by
  decide

/-- C9 (amended): a row is dropped exactly when both its Risk and Action
fields are blank after stripping — Owner and Due are ignored by the
filter; the section is omitted exactly when every row has blank Risk and
Action, and otherwise contains exactly the rows with a non-blank Risk or
Action. -/
theorem C9_risks_filtering (l : List RiskRow) :
    (risksSection l = none ↔ ∀ r ∈ l, strip r.Risk = "" ∧ strip r.Action = "") ∧
    (∀ s, risksSection l = some s →
      ∀ r : RiskRow, (r ∈ s ↔ (r ∈ l ∧ (strip r.Risk ≠ "" ∨ strip r.Action ≠ "")))) := by
  constructor
  · unfold risksSection
    by_cases h : (l.filter hasContent).isEmpty
    · simp only [h, if_true, true_iff]
      intro r hr
      have := List.filter_eq_nil_iff.mp (List.isEmpty_iff.mp h) r hr
      simp only [hasContent, Bool.or_eq_true, decide_eq_true_eq, not_or, Decidable.not_not] at this
      exact ⟨by tauto, by tauto⟩
    · simp only [h, if_false]
      constructor
      · intro hcontra
        simp at hcontra
      · intro hall
        exfalso
        apply h
        rw [List.isEmpty_iff, List.filter_eq_nil_iff]
        intro r hr
        obtain ⟨h1, h2⟩ := hall r hr
        simp [hasContent, h1, h2]
  · intro s hs r
    by_cases h : (l.filter hasContent).isEmpty
    · rw [risksSection, if_pos h] at hs
      exact absurd hs (by simp)
    · rw [risksSection] at hs
      rw [if_neg h, Option.some_inj] at hs
      subst hs
      rw [List.mem_filter]
      simp [hasContent]

/-- Witness for `C9_risks_filtering`: one blank row plus one row with
Risk "a" yields the section containing exactly the second row. -/
theorem C9_risks_filtering_witness :
    risksSection [⟨"", "", "", ""⟩, ⟨"a", "", "", ""⟩] = some [⟨"a", "", "", ""⟩] ∧
    (⟨"a", "", "", ""⟩ : RiskRow) ∈ [(⟨"a", "", "", ""⟩ : RiskRow)] := by
  have h := (C9_risks_filtering [⟨"", "", "", ""⟩, ⟨"a", "", "", ""⟩]).2
    [⟨"a", "", "", ""⟩] (by decide) ⟨"a", "", "", ""⟩
  exact ⟨by decide, h.mpr ⟨by decide, by decide⟩⟩

/-! ### Claim C10 -/

/-- C10: the "Largest increases" list is the three largest deltas by value
regardless of sign — here, with only one positive delta, it contains the
negative deltas −2 and −3, and the rendering forces a "+" prefix onto the
negative value (producing "+-2.00"); symmetrically the "Largest
decreases" list contains the positive delta +1. -/
theorem C10_selection_ignores_sign :
    topIncreases [1, -2, -3] = [(0, 1), (1, -2), (2, -3)] ∧
    ((1, (-2 : ℚ)) ∈ topIncreases [1, -2, -3] ∧ (-2 : ℚ) < 0) ∧
    renderIncrease "Mar" (-2) = "  - Mar: +-2.00" ∧
    topDecreases [1, -2, -3] = [(2, -3), (1, -2), (0, 1)] ∧
    ((0, (1 : ℚ)) ∈ topDecreases [1, -2, -3] ∧ (0 : ℚ) < 1) ∧
    renderDecrease "Feb" 1 = "  - Feb: 1.00" := by
  refine ⟨by decide, ⟨by decide, by norm_num⟩, ?_, by decide, ⟨by decide, by norm_num⟩, ?_⟩
  · norm_num [renderIncrease, fmtComma2, roundCents, commaChunks, Nat.toDigits,
      Nat.toDigitsCore, Nat.digitChar]
    decide
  · norm_num [renderDecrease, fmtComma2, roundCents, commaChunks, Nat.toDigits,
      Nat.toDigitsCore, Nat.digitChar]
    decide

/-! ### Helper lemmas for the top-3 selections -/

theorem pair_sublist_of_get {β : Type} {l : List β} :
    ∀ {i j : Nat} {x y : β}, i < j → l[i]? = some x → l[j]? = some y →
      List.Sublist [x, y] l := by
  induction l with
  | nil =>
    intro i j x y _ hx _
    simp at hx
  | cons a t ih =>
    intro i j x y hij hx hy
    cases i with
    | zero =>
      simp only [List.getElem?_cons_zero, Option.some_inj] at hx
      subst hx
      cases j with
      | zero => omega
      | succ m =>
        simp only [List.getElem?_cons_succ] at hy
        have hmem : y ∈ t := List.getElem?_mem hy
        exact List.Sublist.cons₂ _ (List.singleton_sublist.mpr hmem)
    | succ n =>
      cases j with
      | zero => omega
      | succ m =>
        simp only [List.getElem?_cons_succ] at hx hy
        exact List.Sublist.cons _ (ih (by omega) hx hy)

theorem mem_take_of_pair_sublist {β : Type} {x y : β} :
    ∀ {s : List β} {n : Nat}, List.Sublist [x, y] s → s.Nodup → y ∈ s.take n → x ∈ s.take n := by
  intro s
  induction s with
  | nil =>
    intro n h _ hy
    rw [List.take_nil] at hy
    simp at hy
  | cons a t ih =>
    intro n hsub hnd hy
    cases n with
    | zero => simp at hy
    | succ m =>
      rw [List.take_succ_cons] at hy ⊢
      cases hsub with
      | cons _ h' =>
        rcases List.mem_cons.mp hy with rfl | hy'
        · have hyt : y ∈ t := h'.subset (by simp)
          exact absurd hyt (List.nodup_cons.mp hnd).1
        · exact List.mem_cons_of_mem _ (ih h' (List.nodup_cons.mp hnd).2 hy')
      | cons₂ h' =>
        exact List.mem_cons_self _ _

theorem nodup_enum_rat (ds : List ℚ) : ds.enum.Nodup := by
  have h : (ds.enum.map Prod.fst).Nodup := by
    rw [List.enum_map_fst]
    exact List.nodup_range _
  exact h.of_map

/-- Everything pandas `keep="first"` top-3 selection guarantees, generic
in the sorting relation: sortedness, length, membership, the top-3
property, and first-occurrence stability at ties. -/
theorem take3_sort_spec {κ : Type} (r : (κ × ℚ) → (κ × ℚ) → Prop) [DecidableRel r]
    [IsTotal (κ × ℚ) r] [IsTrans (κ × ℚ) r] (l : List (κ × ℚ)) :
    List.Sorted r ((List.insertionSort r l).take 3) ∧
    ((List.insertionSort r l).take 3).length = min 3 l.length ∧
    (∀ x ∈ (List.insertionSort r l).take 3, x ∈ l) ∧
    (∀ x ∈ (List.insertionSort r l).take 3, ∀ y ∈ l,
      y ∉ (List.insertionSort r l).take 3 → r x y) ∧
    (l.Nodup → ∀ a b, r a b → List.Sublist [a, b] l →
      b ∈ (List.insertionSort r l).take 3 → a ∈ (List.insertionSort r l).take 3) := by
  have hsorted : List.Sorted r (List.insertionSort r l) := List.sorted_insertionSort r l
  have hperm : List.Perm (List.insertionSort r l) l := List.perm_insertionSort r l
  refine ⟨hsorted.sublist (List.take_sublist _ _), ?_, ?_, ?_, ?_⟩
  · rw [List.length_take, List.length_insertionSort]
  · intro x hx
    exact hperm.mem_iff.mp (List.take_subset _ _ hx)
  · intro x hx y hy hyn
    have hys : y ∈ List.insertionSort r l := hperm.mem_iff.mpr hy
    have hyd : y ∈ (List.insertionSort r l).drop 3 := by
      rcases List.mem_append.mp
          (by rw [List.take_append_drop]; exact hys :
            y ∈ (List.insertionSort r l).take 3 ++ (List.insertionSort r l).drop 3) with
        h | h
      · exact absurd h hyn
      · exact h
    exact hsorted.rel_of_mem_take_of_mem_drop hx hyd
  · intro hnd a b hab hsub hb
    have hnds : (List.insertionSort r l).Nodup := hperm.symm.nodup hnd
    have hpair : List.Sublist [a, b] (List.insertionSort r l) :=
      List.pair_sublist_insertionSort hab hsub
    exact mem_take_of_pair_sublist hpair hnds hb

/-! ### Claim C8 -/

/-- C8: for every delta list, the top-increases list is the top-3 deltas
by value sorted descending, the top-decreases list is the bottom-3 sorted
ascending, each has length `min 3 N` (so at most 3 and at most the number
of available deltas, all of them when fewer than 3 exist), every selected
delta is at least (resp. at most) every non-selected one, and a tie is won
by the delta appearing earlier in trend order. -/
theorem C8_variance_ranking (ds : List ℚ) :
    List.Sorted descVal (topIncreases ds) ∧
    List.Sorted ascVal (topDecreases ds) ∧
    (topIncreases ds).length = min 3 ds.length ∧
    (topDecreases ds).length = min 3 ds.length ∧
    (∀ x ∈ topIncreases ds, x ∈ ds.enum) ∧
    (∀ x ∈ topDecreases ds, x ∈ ds.enum) ∧
    (∀ x ∈ topIncreases ds, ∀ y ∈ ds.enum, y ∉ topIncreases ds → y.2 ≤ x.2) ∧
    (∀ x ∈ topDecreases ds, ∀ y ∈ ds.enum, y ∉ topDecreases ds → x.2 ≤ y.2) ∧
    (∀ i j v, (i, v) ∈ ds.enum → (j, v) ∈ ds.enum → i < j →
      (j, v) ∈ topIncreases ds → (i, v) ∈ topIncreases ds) ∧
    (∀ i j v, (i, v) ∈ ds.enum → (j, v) ∈ ds.enum → i < j →
      (j, v) ∈ topDecreases ds → (i, v) ∈ topDecreases ds) := by
  obtain ⟨d1, d2, d3, d4, d5⟩ := take3_sort_spec descVal ds.enum
  obtain ⟨a1, a2, a3, a4, a5⟩ := take3_sort_spec ascVal ds.enum
  have hlen : ds.enum.length = ds.length := List.enum_length
  have hpair : ∀ (i j : Nat) (v : ℚ), (i, v) ∈ ds.enum → (j, v) ∈ ds.enum → i < j →
      List.Sublist [((i, v) : Nat × ℚ), (j, v)] ds.enum := by
    intro i j v hi hj hij
    have hgi : ds.enum[i]? = some (i, v) := by
      rw [List.getElem?_enum, List.mk_mem_enum_iff_getElem?.mp hi]
      rfl
    have hgj : ds.enum[j]? = some (j, v) := by
      rw [List.getElem?_enum, List.mk_mem_enum_iff_getElem?.mp hj]
      rfl
    exact pair_sublist_of_get hij hgi hgj
  refine ⟨d1, a1, by rw [topIncreases, nlargest3, d2, hlen],
    by rw [topDecreases, nsmallest3, a2, hlen], d3, a3, d4, a4, ?_, ?_⟩
  · intro i j v hi hj hij hjmem
    exact d5 (nodup_enum_rat ds) (i, v) (j, v) (le_refl v) (hpair i j v hi hj hij) hjmem
  · intro i j v hi hj hij hjmem
    exact a5 (nodup_enum_rat ds) (i, v) (j, v) (le_refl v) (hpair i j v hi hj hij) hjmem

/-- Witness for `C8_variance_ranking`: on `[2, 1, 2, 0]` the increases
list is `[(0,2), (2,2), (1,1)]` — the tie between the two deltas of value
2 is won for first place by the earlier one, and the boundary conjunct
applies with `i = 0 < j = 2`. -/
theorem C8_variance_ranking_witness :
    topIncreases [2, 1, 2, 0] = [(0, 2), (2, 2), (1, 1)] ∧
    (0, (2 : ℚ)) ∈ topIncreases [2, 1, 2, 0] := by
  refine ⟨by decide, ?_⟩
  exact (C8_variance_ranking [2, 1, 2, 0]).2.2.2.2.2.2.2.2.1 0 2 2
    (by decide) (by decide) (by decide) (by decide)

/-! ### Claim C3 -/

/-- C3 counterexample: with categorical (non-date-parseable) keys mapping
`0 ↦ 5` and `1 ↦ 1`, the code leaves the trend in groupby key order
`[(0,5), (1,1)]`, which is not ascending by aggregated value — refuting
"otherwise ... the series is ordered by ascending aggregated value". -/
theorem C3_counterexample :
    ¬ List.Pairwise ascVal
      (trendPipeline (fun _ => none) [⟨0, Cell.num 5⟩, ⟨(1 : ℕ), Cell.num 1⟩]) := by
  have h : trendPipeline (fun _ => none) [⟨0, Cell.num 5⟩, ⟨(1 : ℕ), Cell.num 1⟩] =
      [(0, 5), (1, 1)] := by
    norm_num [trendPipeline, sortTrend, trendOf, groupKeys, groupSum, nansum, coerce_numeric,
      List.insertionSort, List.orderedInsert, List.dedup_cons_of_mem, List.dedup_cons_of_not_mem]
  rw [h]
  decide

/-- C3 (amended): if every group key parses as a date, the trend series is
sorted ascending chronologically (non-decreasing by parsed date); if some
key does not parse, the series is left exactly as grouping produced it —
the keys keep their original categorical form and the order is ascending
by group key, not by aggregated value. -/
theorem C3_trend_ordering {α : Type} [LinearOrder α] (parse : α → Option Int)
    (rows : List (Row α)) :
    ((∀ kv ∈ trendOf rows, (parse kv.1).isSome = true) →
      List.Sorted (dateLe parse) (trendPipeline parse rows)) ∧
    ((¬ ∀ kv ∈ trendOf rows, (parse kv.1).isSome = true) →
      trendPipeline parse rows = trendOf rows ∧
      List.Sorted keyLe (trendOf rows)) := by
  constructor
  · intro hall
    rw [trendPipeline, sortTrend, if_pos (List.all_eq_true.mpr hall)]
    exact List.sorted_insertionSort _ _
  · intro hnall
    have hcond : ¬ (trendOf rows).all (fun kv => (parse kv.1).isSome) = true := by
      rw [List.all_eq_true]
      exact hnall
    refine ⟨by rw [trendPipeline, sortTrend, if_neg hcond], ?_⟩
    have hkeys : List.Sorted (· ≤ ·) (groupKeys rows) := List.sorted_insertionSort _ _
    have hmap : List.Pairwise keyLe
        ((groupKeys rows).map (fun k => (k, groupSum rows k))) := by
      rw [List.pairwise_map]
      exact hkeys.imp (fun h => h)
    exact hmap

/-- Witness for `C3_trend_ordering`: on the concrete categorical trend
`[(0,5), (1,1)]` the fallback branch applies and the pipeline returns the
grouping output unchanged. -/
theorem C3_trend_ordering_witness :
    trendPipeline (fun _ => none) [⟨0, Cell.num 5⟩, ⟨(1 : ℕ), Cell.num 1⟩] =
      trendOf [⟨0, Cell.num 5⟩, ⟨(1 : ℕ), Cell.num 1⟩] := by
  refine ((C3_trend_ordering (fun _ => none)
    [⟨0, Cell.num 5⟩, ⟨(1 : ℕ), Cell.num 1⟩]).2 ?_).1
  intro hall
  have h0 : ((0 : ℕ), (5 : ℚ)) ∈ trendOf [⟨0, Cell.num 5⟩, ⟨(1 : ℕ), Cell.num 1⟩] := by
    have h : trendOf [⟨0, Cell.num 5⟩, ⟨(1 : ℕ), Cell.num 1⟩] = [(0, 5), (1, 1)] := by
      norm_num [trendOf, groupKeys, groupSum, nansum, coerce_numeric,
        List.insertionSort, List.orderedInsert, List.dedup_cons_of_mem,
        List.dedup_cons_of_not_mem]
    rw [h]
    exact List.mem_cons_self _ _
  simpa using hall _ h0

/-! ### Helper lemmas about grouping -/

theorem mem_groupKeys {α : Type} [LinearOrder α] {rows : List (Row α)} {k : α} :
    k ∈ groupKeys rows ↔ ∃ r ∈ rows, r.period = k := by
  simp [groupKeys, List.mem_insertionSort, List.mem_dedup]

theorem nodup_groupKeys {α : Type} [LinearOrder α] (rows : List (Row α)) :
    (groupKeys rows).Nodup :=
  (List.perm_insertionSort _ _).nodup_iff.mpr ((rows.map Row.period).nodup_dedup)

theorem sorted_lt_groupKeys {α : Type} [LinearOrder α] (rows : List (Row α)) :
    List.Sorted (· < ·) (groupKeys rows) :=
  (List.sorted_insertionSort _ _).lt_of_le (nodup_groupKeys rows)

theorem nansum_map_filter_isSome {α : Type} (l : List (Row α)) :
    nansum ((l.filter (fun r => (coerce_numeric r.amount).isSome)).map
      (fun r => coerce_numeric r.amount)) =
    nansum (l.map (fun r => coerce_numeric r.amount)) := by
  induction l with
  | nil => rfl
  | cons r t ih =>
    rcases hc : coerce_numeric r.amount with _ | q
    · simpa [List.filter_cons, hc, nansum] using ih
    · simpa [List.filter_cons, hc, nansum] using ih

theorem groupSum_dropMissing {α : Type} [DecidableEq α] (rows : List (Row α)) (k : α) :
    groupSum (dropMissing rows) k = groupSum rows k := by
  rw [groupSum, groupSum, dropMissing, List.filter_filter]
  have hswap : (rows.filter (fun r =>
        decide (r.period = k) && (coerce_numeric r.amount).isSome)) =
      ((rows.filter (fun r => decide (r.period = k))).filter
        (fun r => (coerce_numeric r.amount).isSome)) := by
    rw [List.filter_filter]
    apply List.filter_congr
    intro r _
    exact Bool.and_comm _ _
  rw [hswap, nansum_map_filter_isSome]

theorem groupKeys_dropMissing {α : Type} [LinearOrder α] (rows : List (Row α)) :
    groupKeys (dropMissing rows) = (groupKeys rows).filter
      (fun k => rows.any (fun r => decide (r.period = k) &&
        (coerce_numeric r.amount).isSome)) := by
  haveI : IsAntisymm α (· < ·) := ⟨fun a b h h' => absurd h' (lt_asymm h)⟩
  refine List.eq_of_perm_of_sorted ?_ (sorted_lt_groupKeys _)
    ((sorted_lt_groupKeys rows).filter _)
  refine (List.perm_ext_iff_of_nodup (nodup_groupKeys _)
    ((nodup_groupKeys rows).filter _)).mpr ?_
  intro k
  simp only [mem_groupKeys, List.mem_filter, List.any_eq_true, Bool.and_eq_true,
    decide_eq_true_eq, dropMissing]
  tauto

/-! ### Claim C2 -/

/-- C2 counterexample: a table with one text-amount row under key 0 and
one numeric row under key 1.  Dropping rows with a missing coerced amount
before grouping (the claim) loses key 0 entirely, while the code's
`groupby(...).sum()` keeps key 0 with aggregated value 0 — so the code's
trend is not the claimed drop-then-group-then-sum trend. -/
theorem C2_counterexample :
    trendOf [⟨0, Cell.text⟩, ⟨(1 : ℕ), Cell.num 1⟩] ≠
      trend_spec [⟨0, Cell.text⟩, ⟨(1 : ℕ), Cell.num 1⟩] := by
  have h1 : trendOf [⟨0, Cell.text⟩, ⟨(1 : ℕ), Cell.num 1⟩] = [(0, 0), (1, 1)] := by
    norm_num [trendOf, groupKeys, groupSum, nansum, coerce_numeric,
      List.insertionSort, List.orderedInsert, List.dedup_cons_of_mem,
      List.dedup_cons_of_not_mem]
  have h2 : trend_spec [⟨0, Cell.text⟩, ⟨(1 : ℕ), Cell.num 1⟩] = [(1, 1)] := by
    norm_num [trend_spec, dropMissing, trendOf, groupKeys, groupSum, nansum, coerce_numeric,
      List.insertionSort, List.orderedInsert, List.dedup_cons_of_mem,
      List.dedup_cons_of_not_mem]
  rw [h1, h2]
  decide

/-- C2 (amended): the code's trend groups ALL rows by the period-column
value and sums the coerced amounts within each group ignoring missing
values; dropping the rows with a missing coerced amount before grouping
(as the spec words it) yields exactly the code's trend restricted to the
keys that have at least one non-missing amount — equivalently, the two
computations differ exactly on all-missing groups, which the code keeps
with aggregated value 0. -/
theorem C2_trend_grouping {α : Type} [LinearOrder α] (rows : List (Row α)) :
    trend_spec rows = (trendOf rows).filter
      (fun kv => rows.any (fun r => decide (r.period = kv.1) &&
        (coerce_numeric r.amount).isSome)) := by
  have hstep : trend_spec rows =
      ((groupKeys rows).filter
        (fun k => rows.any (fun r => decide (r.period = k) &&
          (coerce_numeric r.amount).isSome))).map (fun k => (k, groupSum rows k)) := by
    rw [trend_spec, trendOf, groupKeys_dropMissing]
    exact List.map_congr_left (fun k _ => by rw [groupSum_dropMissing])
  rw [hstep, trendOf, List.filter_map]
  rfl

/-! ### Helper lemmas for claim C1 -/

theorem diffs_length : ∀ l : List ℚ, (diffs l).length = l.length - 1
  | [] => rfl
  | [_] => rfl
  | a :: b :: t => by
    rw [diffs, List.length_cons, diffs_length (b :: t)]
    simp

theorem filterMap_eq_map_of_isSome {α : Type} (rows : List (Row α))
    (hsome : ∀ r ∈ rows, (coerce_numeric r.amount).isSome = true) :
    rows.filterMap (fun r => (coerce_numeric r.amount).map (fun q => (r.period, q))) =
      rows.map (fun r => (r.period, (coerce_numeric r.amount).getD 0)) := by
  induction rows with
  | nil => rfl
  | cons r t ih =>
    have hr := hsome r (List.mem_cons_self _ _)
    rcases hc : coerce_numeric r.amount with _ | q
    · rw [hc] at hr
      simp at hr
    · rw [List.filterMap_cons, List.map_cons, hc]
      rw [ih (fun x hx => hsome x (List.mem_cons_of_mem _ hx))]
      rfl

theorem filter_period_eq_singleton {α : Type} [DecidableEq α] {rows : List (Row α)}
    (hnd : (rows.map Row.period).Nodup) {r : Row α} (hr : r ∈ rows) :
    rows.filter (fun r' => decide (r'.period = r.period)) = [r] := by
  induction rows with
  | nil => simp at hr
  | cons a t ih =>
    rw [List.map_cons, List.nodup_cons] at hnd
    rcases List.mem_cons.mp hr with rfl | hrt
    · rw [List.filter_cons, if_pos (by simp)]
      have hnil : t.filter (fun r' => decide (r'.period = r.period)) = [] := by
        rw [List.filter_eq_nil_iff]
        intro x hx
        simp only [decide_eq_true_eq]
        intro hcontra
        exact hnd.1 (hcontra ▸ List.mem_map_of_mem Row.period hx)
      rw [hnil]
    · have hne : ¬ a.period = r.period := by
        intro hcontra
        exact hnd.1 (hcontra ▸ List.mem_map_of_mem Row.period hrt)
      rw [List.filter_cons, if_neg (by simpa using hne)]
      exact ih hnd.2 hrt

theorem groupSum_of_unique {α : Type} [DecidableEq α] {rows : List (Row α)}
    (hnd : (rows.map Row.period).Nodup) {r : Row α} (hr : r ∈ rows) :
    groupSum rows r.period = (coerce_numeric r.amount).getD 0 := by
  rw [groupSum, filter_period_eq_singleton hnd hr, List.map_singleton]
  rcases hc : coerce_numeric r.amount with _ | q
  · simp [nansum]
  · simp [nansum]

theorem varRows_eq_trendOf {α : Type} [LinearOrder α] (rows : List (Row α))
    (hnd : (rows.map Row.period).Nodup)
    (hsome : ∀ r ∈ rows, (coerce_numeric r.amount).isSome = true) :
    varRows rows = trendOf rows := by
  haveI : IsAntisymm (α × ℚ) (fun a b => a.1 < b.1) :=
    ⟨fun a b h h' => absurd h' (lt_asymm h)⟩
  set pair : Row α → α × ℚ := fun r => (r.period, (coerce_numeric r.amount).getD 0) with hpair
  have hvr : varRows rows = List.insertionSort keyLe (rows.map pair) := by
    rw [varRows, filterMap_eq_map_of_isSome rows hsome]
  have hperm1 : List.Perm (varRows rows) (rows.map pair) := by
    rw [hvr]
    exact List.perm_insertionSort _ _
  have htr : trendOf rows =
      (List.insertionSort (· ≤ ·) (rows.map Row.period)).map
        (fun k => (k, groupSum rows k)) := by
    rw [trendOf, groupKeys, List.dedup_eq_self.mpr hnd]
  have hperm2 : List.Perm (trendOf rows) (rows.map pair) := by
    rw [htr]
    refine List.Perm.trans ((List.perm_insertionSort _ _).map _) ?_
    rw [List.map_map]
    rw [List.map_congr_left (fun r hr => ?_)]
    show (r.period, groupSum rows r.period) = pair r
    rw [groupSum_of_unique hnd hr]
  -- both lists are sorted strictly by key
  have hs1 : List.Pairwise (fun a b : α × ℚ => a.1 < b.1) (varRows rows) := by
    have hle : List.Pairwise keyLe (varRows rows) := by
      rw [hvr]
      exact List.sorted_insertionSort _ _
    have hfst : ((varRows rows).map Prod.fst).Nodup := by
      have : List.Perm ((varRows rows).map Prod.fst) (rows.map Row.period) := by
        have := hperm1.map Prod.fst
        rwa [List.map_map] at this
      exact this.nodup_iff.mpr hnd
    have hne : List.Pairwise (fun a b : α × ℚ => a.1 ≠ b.1) (varRows rows) :=
      List.pairwise_map.mp hfst
    exact (hle.and hne).imp (fun h => lt_of_le_of_ne h.1 h.2)
  have hs2 : List.Pairwise (fun a b : α × ℚ => a.1 < b.1) (trendOf rows) := by
    have hkeys : List.Sorted (· < ·) (groupKeys rows) := sorted_lt_groupKeys rows
    rw [trendOf]
    rw [List.pairwise_map]
    exact hkeys.imp (fun h => h)
  exact List.eq_of_perm_of_sorted (hperm1.trans hperm2.symm) hs1 hs2

/-! ### Claim C1 -/

/-- C1 counterexample: the table `[(A,1), (A,1), (B,3)]` aggregates to the
2-point trend `[A ↦ 2, B ↦ 3]`, whose first differences are `[1]` — one
delta, as N−1 would demand.  The code instead diffs the individual
period-sorted rows (`df2[amount_col].diff()`, app.py line 210) and gets
the two deltas `[0, 2]`: the deltas are neither the first differences of
the aggregated values nor N−1 in number. -/
theorem C1_counterexample :
    varDeltas [⟨0, Cell.num 1⟩, ⟨0, Cell.num 1⟩, ⟨(1 : ℕ), Cell.num 3⟩] ≠
      diffs ((trendOf [⟨0, Cell.num 1⟩, ⟨0, Cell.num 1⟩, ⟨(1 : ℕ), Cell.num 3⟩]).map
        Prod.snd) ∧
    (varDeltas [⟨0, Cell.num 1⟩, ⟨0, Cell.num 1⟩, ⟨(1 : ℕ), Cell.num 3⟩]).length ≠
      (trendOf [⟨0, Cell.num 1⟩, ⟨0, Cell.num 1⟩, ⟨(1 : ℕ), Cell.num 3⟩]).length - 1 := by
  have h1 : varDeltas [⟨0, Cell.num 1⟩, ⟨0, Cell.num 1⟩, ⟨(1 : ℕ), Cell.num 3⟩] = [0, 2] := by
    norm_num [varDeltas, varRows, coerce_numeric, diffs, keyLe,
      List.insertionSort, List.orderedInsert]
  have h2 : trendOf [⟨0, Cell.num 1⟩, ⟨0, Cell.num 1⟩, ⟨(1 : ℕ), Cell.num 3⟩] =
      [(0, 2), (1, 3)] := by
    norm_num [trendOf, groupKeys, groupSum, nansum, coerce_numeric,
      List.insertionSort, List.orderedInsert, List.dedup_cons_of_mem,
      List.dedup_cons_of_not_mem]
  rw [h1, h2]
  constructor
  · intro hcontra
    rw [show ([((0 : ℕ), (2 : ℚ)), (1, 3)]).map Prod.snd = [2, 3] from rfl] at hcontra
    rw [show diffs [(2 : ℚ), 3] = [1] from by norm_num [diffs]] at hcontra
    simp at hcontra
  · decide

/-- C1 (amended): the variance deltas are row-level, not aggregated:
dropping rows with a missing amount and sorting by period, M rows yield
exactly M−1 first differences of consecutive row amounts.  Only when
every period key occurs on at most one row and every amount coerces does
this coincide with the first differences of the aggregated trend, with
exactly N−1 deltas for N aggregated points. -/
theorem C1_deltas_row_level {α : Type} [LinearOrder α] (rows : List (Row α)) :
    (varDeltas rows).length = (varRows rows).length - 1 ∧
    ((rows.map Row.period).Nodup →
      (∀ r ∈ rows, (coerce_numeric r.amount).isSome = true) →
      varRows rows = trendOf rows ∧
      varDeltas rows = diffs ((trendOf rows).map Prod.snd) ∧
      (varDeltas rows).length = (trendOf rows).length - 1) := by
  have hlen : (varDeltas rows).length = (varRows rows).length - 1 := by
    rw [varDeltas, diffs_length, List.length_map]
  refine ⟨hlen, fun hnd hsome => ?_⟩
  have heq := varRows_eq_trendOf rows hnd hsome
  refine ⟨heq, by rw [varDeltas, heq], ?_⟩
  rw [hlen, heq]

/-- Witness for `C1_deltas_row_level`: with distinct periods and numeric
amounts the row-level deltas agree with the aggregated-trend deltas. -/
theorem C1_deltas_row_level_witness :
    varRows [⟨0, Cell.num 1⟩, ⟨(1 : ℕ), Cell.num 3⟩] =
      trendOf [⟨0, Cell.num 1⟩, ⟨(1 : ℕ), Cell.num 3⟩] :=
  ((C1_deltas_row_level [⟨0, Cell.num 1⟩, ⟨(1 : ℕ), Cell.num 3⟩]).2
    (by decide) (by decide)).1

end CFO
